import Mathlib

/-!
Shallow embedding of the `reconcileprune` Go library (pruner.go, options.go,
types.go) and proofs about its generation-aware pruning algorithm.

Modelling conventions:
* Go `int64` generations become `Int` (no arithmetic here ever overflows:
  the code only compares and copies generation values).
* The external collaborators (scheme / GVK resolution, object construction
  from a stored reference, the deletion transport, and the error-handler
  policy) are passed as a record of functions `Collaborators`; they are
  out-of-repo code reached only through their interfaces.
* Go's in-place mutation of the `Pruner` receiver and of the borrowed
  `children` slice becomes explicit state passing: each operation returns
  the new `Pruner` state.  An operation that in Go returns `error` returns
  the unchanged state paired with `Option String`.
* The Go `map[string]struct{}` of desired reference keys becomes a
  `List String` with insert-if-absent; only membership is ever consulted.
* To make "no deletion was performed" and "the error handler was not
  invoked" provable, the prune executor additionally returns the list of
  references on which the deletion transport (resp. the handler) was
  invoked; this log is observational only and does not affect the state.
-/

namespace Reconcileprune

/-- Embeds `corev1.ObjectReference` as used by this library: the fields
written by `makeObjectReference` (APIVersion, Kind, Namespace, Name, UID).
`nspace` stands for the Go field `Namespace`. -/
structure ObjectReference where
  apiVersion : String
  kind : String
  nspace : String
  name : String
  uid : String
deriving DecidableEq

/-- Embeds `ManagedChild` from types.go: one ledger entry. -/
structure ManagedChild where
  objectReference : ObjectReference
  observedGeneration : Int
deriving DecidableEq

/-- Embeds `Result` from types.go. -/
structure Result where
  pruned : List String
  skipped : List String
deriving DecidableEq

/-- Embeds `schema.GroupVersionKind`. -/
structure GVK where
  group : String
  version : String
  kind : String
deriving DecidableEq

/-- The slice of a `client.Object` visible to this library: namespace,
name and UID accessors (`nspace` stands for `GetNamespace()`). -/
structure ClientObject where
  nspace : String
  name : String
  uid : String
deriving DecidableEq

/-- Outcome of one call to the deletion transport (`client.Delete`). -/
inductive DeleteOutcome where
  | success
  | notFound
  | failed (msg : String)
deriving DecidableEq

/-- The external collaborators of the pruner, reached only through their
interfaces: `getGVK` embeds scheme lookup (`Pruner.getGVK`, covering a nil
scheme, `ObjectKinds` failure and the empty-GVK case as its `.error`
outcomes), `objectFromRef` the fallible construction of a deletable handle
from a stored reference (`Pruner.objectFromReference`: APIVersion parsing,
`scheme.New`, the `client.Object` cast — the handle itself is determined
by the reference, so only success/failure is recorded), `del` the deletion
transport for the handle built from a reference, and `handler` the error
policy (`ErrorHandlerFunc`; `none` means "ignore and continue"). -/
structure Collaborators where
  getGVK : ClientObject → Except String GVK
  objectFromRef : ObjectReference → Except String Unit
  del : ObjectReference → DeleteOutcome
  handler : String → ObjectReference → Option String

/-- Embeds `Pruner`'s plain-data state (pruner.go lines 31-43); the
function-valued fields live in `Collaborators`. -/
structure Pruner where
  dryRun : Bool
  desiredRefs : List String
  children : List ManagedChild
  result : Result
  lastAppliedGen : Int
deriving DecidableEq

/-- Embeds `schema.GroupVersion.String()`: `group + "/" + version`, or just
`version` when the group is empty. -/
def groupVersionString (g : GVK) : String :=
  if g.group = "" then g.version else g.group ++ "/" ++ g.version

/-- Embeds `makeRefKey` (pruner.go lines 305-308): the string key used for
the desired set, built from APIVersion, Kind, Namespace and Name.  Note
the UID does not enter the key. -/
def makeRefKey (ref : ObjectReference) : String :=
  ref.apiVersion ++ "/" ++ ref.kind ++ "/" ++ ref.nspace ++ "/" ++ ref.name

/-- Embeds `formatObjectReference` (pruner.go lines 311-316). -/
def formatObjectReference (ref : ObjectReference) : String :=
  if ref.nspace ≠ "" then ref.kind ++ " " ++ ref.nspace ++ "/" ++ ref.name
  else ref.kind ++ " " ++ ref.name

/-- Embeds `makeObjectReference` (pruner.go lines 259-272). -/
def makeObjectReference (env : Collaborators) (obj : ClientObject) :
    Except String ObjectReference :=
  match env.getGVK obj with
  | .error e => .error e
  | .ok gvk =>
      .ok ⟨groupVersionString gvk, gvk.kind, obj.nspace, obj.name, obj.uid⟩

/-- Embeds `getLastAppliedGeneration` (pruner.go lines 238-256). -/
def getLastAppliedGeneration (children : List ManagedChild) (currentGen : Int) :
    Int :=
  if children = [] then 0
  else
    let maxGen := children.foldl
      (fun m c => if c.observedGeneration > m then c.observedGeneration else m) 0
    if maxGen = currentGen then currentGen else maxGen

/-- Embeds `upsertChild` (pruner.go lines 221-233): update the first entry
with an equal reference in place, else append. -/
def upsertChild (children : List ManagedChild) (ref : ObjectReference)
    (observedGeneration : Int) : List ManagedChild :=
  match children with
  | [] => [⟨ref, observedGeneration⟩]
  | c :: rest =>
      if c.objectReference = ref then
        { c with observedGeneration := observedGeneration } :: rest
      else c :: upsertChild rest ref observedGeneration

/-- Map-insert for the desired-ref key set (`p.desiredRefs[refKey] = ...`). -/
def insertKey (k : String) (l : List String) : List String :=
  if k ∈ l then l else k :: l

/-- Embeds `NewPruner` (pruner.go lines 60-79): fresh session state with
the baseline generation captured from the ledger before any modification.
`currentGen` is `owner.GetGeneration()` at construction time. -/
def NewPruner (children : List ManagedChild) (currentGen : Int)
    (dryRun : Bool) : Pruner :=
  { dryRun := dryRun
    desiredRefs := []
    children := children
    result := ⟨[], []⟩
    lastAppliedGen := getLastAppliedGeneration children currentGen }

/-- Embeds `MarkReconciled` (pruner.go lines 90-112).  Returns the new
state and `none`, or — mirroring Go's early returns before any mutation —
the unchanged state and `some` error message.  `currentGen` is
`p.owner.GetGeneration()` at call time. -/
def markReconciled (env : Collaborators) (p : Pruner) (obj : ClientObject)
    (currentGen : Int) : Pruner × Option String :=
  if obj.uid = "" then
    (p, some ("object " ++ obj.nspace ++ "/" ++ obj.name ++
      " must have a UID (has it been created in the cluster?)"))
  else
    match makeObjectReference env obj with
    | .error e => (p, some ("failed to generate reference for object: " ++ e))
    | .ok ref =>
        ({ p with
            desiredRefs := insertKey (makeRefKey ref) p.desiredRefs
            children := upsertChild p.children ref currentGen }, none)

/-- Embeds `deleteResource` (pruner.go lines 210-218): invoke the deletion
transport, mapping a not-found outcome to success. -/
def deleteResource (del : ObjectReference → DeleteOutcome)
    (ref : ObjectReference) : Option String :=
  match del ref with
  | .success => none
  | .notFound => none
  | .failed e => some e

/-- How an entry is classified by the two keep-guards at the top of the
prune loop (pruner.go lines 161-173). -/
inductive Classification where
  | keepDesired
  | keepFresh
  | stale
deriving DecidableEq

/-- The classification decision of pruner.go lines 161-173: keep when the
entry's key is in the desired set, else keep when its observed generation
exceeds the baseline, else stale. -/
def classify (desiredRefs : List String) (lastAppliedGen : Int)
    (child : ManagedChild) : Classification :=
  if makeRefKey child.objectReference ∈ desiredRefs then .keepDesired
  else if child.observedGeneration > lastAppliedGen then .keepFresh
  else .stale

/-- Output of one `pruneStaleResources` run: the replacement ledger, the
appended result lists, the accumulated errors, and the observational logs
of deletion-transport and error-handler invocations. -/
structure PruneOut where
  children : List ManagedChild
  pruned : List String
  skipped : List String
  errors : List String
  deleteCalls : List ObjectReference
  handlerCalls : List ObjectReference
deriving DecidableEq

/-- Embeds `pruneStaleResources` (pruner.go lines 151-207).  The loop is
recursion on the ledger; each entry's contributions precede the rest's,
matching the Go append order. -/
def pruneStaleResources (env : Collaborators) (dryRun : Bool)
    (desiredRefs : List String) (lastAppliedGen : Int) :
    List ManagedChild → PruneOut
  | [] => ⟨[], [], [], [], [], []⟩
  | child :: rest =>
    let t := pruneStaleResources env dryRun desiredRefs lastAppliedGen rest
    if makeRefKey child.objectReference ∈ desiredRefs then
      { t with children := child :: t.children }
    else if child.observedGeneration > lastAppliedGen then
      { t with children := child :: t.children }
    else
      match env.objectFromRef child.objectReference with
      | .error e =>
          { t with errors :=
              ("failed to create object from reference " ++
                formatObjectReference child.objectReference ++ ": " ++ e)
              :: t.errors }
      | .ok _ =>
          if dryRun then
            { t with skipped :=
                formatObjectReference child.objectReference :: t.skipped }
          else
            match deleteResource env.del child.objectReference with
            | some e =>
                match env.handler e child.objectReference with
                | some he =>
                    { t with
                        children := child :: t.children
                        errors := he :: t.errors
                        deleteCalls := child.objectReference :: t.deleteCalls
                        handlerCalls := child.objectReference :: t.handlerCalls }
                | none =>
                    { t with
                        pruned := formatObjectReference child.objectReference
                          :: t.pruned
                        deleteCalls := child.objectReference :: t.deleteCalls
                        handlerCalls := child.objectReference :: t.handlerCalls }
            | none =>
                { t with
                    pruned := formatObjectReference child.objectReference
                      :: t.pruned
                    deleteCalls := child.objectReference :: t.deleteCalls }

/-- The error value `Prune` returns: `aggregate` is `errors.Join` over the
accumulated prune errors; the `status*` cases wrap a failed `updateStatus`
callback. -/
inductive PruneError where
  | aggregate (errs : List String)
  | statusAfterErrors (u : String)
  | statusAfterSuccess (u : String)
deriving DecidableEq

/-- What a `Prune` call produces: the mutated session state, the returned
`Result`, the collaborator-invocation logs, and the returned error. -/
structure PruneResult where
  state : Pruner
  result : Result
  deleteCalls : List ObjectReference
  handlerCalls : List ObjectReference
  error : Option PruneError
deriving DecidableEq

/-- Embeds `Prune` (pruner.go lines 125-148).  `currentGen` is
`p.owner.GetGeneration()` at call time; `updateStatusErr` is the outcome
of the caller-supplied `updateStatus` callback (`none` = success). -/
def Prune (env : Collaborators) (updateStatusErr : Option String)
    (p : Pruner) (currentGen : Int) : PruneResult :=
  if currentGen > p.lastAppliedGen then
    let out := pruneStaleResources env p.dryRun p.desiredRefs
      p.lastAppliedGen p.children
    let p' : Pruner := { p with
      children := out.children
      result := ⟨p.result.pruned ++ out.pruned,
                 p.result.skipped ++ out.skipped⟩ }
    if out.errors = [] then
      match updateStatusErr with
      | some u => ⟨p', p'.result, out.deleteCalls, out.handlerCalls,
                   some (.statusAfterSuccess u)⟩
      | none => ⟨p', p'.result, out.deleteCalls, out.handlerCalls, none⟩
    else
      match updateStatusErr with
      | some u => ⟨p', p'.result, out.deleteCalls, out.handlerCalls,
                   some (.statusAfterErrors u)⟩
      | none => ⟨p', p'.result, out.deleteCalls, out.handlerCalls,
                 some (.aggregate out.errors)⟩
  else
    match updateStatusErr with
    | some u => ⟨p, p.result, [], [], some (.statusAfterSuccess u)⟩
    | none => ⟨p, p.result, [], [], none⟩

/-- A session's marking phase: `markReconciled` for each object in turn,
stopping at the first failure (the caller aborts its reconcile on a
`MarkReconciled` error). -/
def runMarks (env : Collaborators) (currentGen : Int) :
    Pruner → List ClientObject → Pruner × Option String
  | p, [] => (p, none)
  | p, obj :: rest =>
      match markReconciled env p obj currentGen with
      | (p', none) => runMarks env currentGen p' rest
      | (p', some e) => (p', some e)

/-! ### Basic lemmas about the desired-set and the ledger upsert -/

theorem mem_insertKey {k k' : String} {l : List String} :
    k' ∈ insertKey k l ↔ k' = k ∨ k' ∈ l := by
  unfold insertKey
  split_ifs with h
  · constructor
    · exact Or.inr
    · rintro (rfl | hm)
      · exact h
      · exact hm
  · exact List.mem_cons

theorem upsertChild_mem_self (children : List ManagedChild)
    (ref : ObjectReference) (g : Int) :
    (⟨ref, g⟩ : ManagedChild) ∈ upsertChild children ref g := by
  induction children with
  | nil => simp [upsertChild]
  | cons c rest ih =>
    unfold upsertChild
    split_ifs with h
    · cases c with
      | mk r og =>
        simp only at h
        subst h
        exact List.mem_cons_self _ _
    · exact List.mem_cons_of_mem _ ih

theorem upsertChild_of_not_mem {children : List ManagedChild}
    {ref : ObjectReference} (g : Int)
    (h : ref ∉ children.map (fun c => c.objectReference)) :
    upsertChild children ref g = children ++ [⟨ref, g⟩] := by
  induction children with
  | nil => simp [upsertChild]
  | cons c rest ih =>
    simp only [List.map_cons, List.mem_cons, not_or] at h
    unfold upsertChild
    split_ifs with hc
    · exact absurd hc.symm h.1
    · rw [ih h.2, List.cons_append]

theorem upsertChild_map_of_mem {children : List ManagedChild}
    {ref : ObjectReference} (g : Int)
    (h : ref ∈ children.map (fun c => c.objectReference)) :
    (upsertChild children ref g).map (fun c => c.objectReference) =
      children.map (fun c => c.objectReference) := by
  induction children with
  | nil => simp at h
  | cons c rest ih =>
    unfold upsertChild
    split_ifs with hc
    · simp [hc]
    · simp only [List.map_cons, List.mem_cons] at h
      rcases h with h | h
      · exact absurd h.symm hc
      · simp [ih h]

theorem upsertChild_subset {children : List ManagedChild}
    {ref : ObjectReference} {g : Int} :
    ∀ c' ∈ upsertChild children ref g,
      c' = (⟨ref, g⟩ : ManagedChild) ∨ c' ∈ children := by
  induction children with
  | nil =>
    intro c' hc'
    simp only [upsertChild, List.mem_singleton] at hc'
    exact Or.inl hc'
  | cons c rest ih =>
    intro c' hc'
    unfold upsertChild at hc'
    split_ifs at hc' with hc
    · rcases List.mem_cons.mp hc' with h | h
      · cases c with
        | mk r og =>
          simp only at hc
          subst hc
          exact Or.inl h
      · exact Or.inr (List.mem_cons_of_mem _ h)
    · rcases List.mem_cons.mp hc' with h | h
      · exact Or.inr (h ▸ List.mem_cons_self _ _)
      · rcases ih c' h with h' | h'
        · exact Or.inl h'
        · exact Or.inr (List.mem_cons_of_mem _ h')

theorem upsertChild_nodup {children : List ManagedChild}
    {ref : ObjectReference} (g : Int)
    (h : (children.map (fun c => c.objectReference)).Nodup) :
    ((upsertChild children ref g).map (fun c => c.objectReference)).Nodup := by
  by_cases hm : ref ∈ children.map (fun c => c.objectReference)
  · rw [upsertChild_map_of_mem g hm]
    exact h
  · rw [upsertChild_of_not_mem g hm, List.map_append]
    simp only [List.map_cons, List.map_nil]
    rw [List.nodup_append]
    refine ⟨h, List.nodup_singleton _, ?_⟩
    intro a ha hb
    rw [List.mem_singleton] at hb
    subst hb
    exact hm ha

/-- Extraction lemma: a successful `markReconciled` call means the object
had a UID, its reference was built, and the state was updated exactly by
inserting the key and upserting the ledger entry. -/
theorem markReconciled_ok {env : Collaborators} {p p' : Pruner}
    {obj : ClientObject} {g : Int}
    (h : markReconciled env p obj g = (p', none)) :
    obj.uid ≠ "" ∧ ∃ ref, makeObjectReference env obj = .ok ref ∧
      p' = { p with
        desiredRefs := insertKey (makeRefKey ref) p.desiredRefs
        children := upsertChild p.children ref g } := by
  unfold markReconciled at h
  split_ifs at h with hu
  · simp at h
  · cases hmk : makeObjectReference env obj with
    | error e => rw [hmk] at h; simp at h
    | ok ref =>
      rw [hmk] at h
      simp only [Prod.mk.injEq] at h
      exact ⟨hu, ref, rfl, h.1.symm⟩

/-- `markReconciled` never touches the result, baseline or dry-run flag,
whether it succeeds or fails. -/
theorem markReconciled_invariants (env : Collaborators) (p : Pruner)
    (obj : ClientObject) (g : Int) :
    (markReconciled env p obj g).1.result = p.result ∧
    (markReconciled env p obj g).1.lastAppliedGen = p.lastAppliedGen ∧
    (markReconciled env p obj g).1.dryRun = p.dryRun := by
  unfold markReconciled
  split_ifs with hu
  · exact ⟨rfl, rfl, rfl⟩
  · cases makeObjectReference env obj with
    | error e => exact ⟨rfl, rfl, rfl⟩
    | ok ref => exact ⟨rfl, rfl, rfl⟩

theorem runMarks_invariants (env : Collaborators) (g : Int) :
    ∀ (objs : List ClientObject) (p : Pruner),
      (runMarks env g p objs).1.result = p.result ∧
      (runMarks env g p objs).1.lastAppliedGen = p.lastAppliedGen ∧
      (runMarks env g p objs).1.dryRun = p.dryRun := by
  intro objs
  induction objs with
  | nil => intro p; exact ⟨rfl, rfl, rfl⟩
  | cons o os ih =>
    intro p
    have hmi := markReconciled_invariants env p o g
    unfold runMarks
    cases hm : markReconciled env p o g with
    | mk q oe =>
      rw [hm] at hmi
      cases oe with
      | none =>
        have := ih q
        exact ⟨this.1.trans hmi.1, this.2.1.trans hmi.2.1, this.2.2.trans hmi.2.2⟩
      | some e => exact hmi

/-! ### Concrete fixtures used by witnesses and counterexamples -/

/-- A resolvable GroupVersionKind. -/
def gvkW : GVK := ⟨"apps", "v1", "Deployment"⟩

/-- Collaborators for the happy path: resolution succeeds, deletion
succeeds, the handler ignores errors. -/
def envW : Collaborators :=
  { getGVK := fun _ => .ok gvkW
    objectFromRef := fun _ => .ok ()
    del := fun _ => .success
    handler := fun _ _ => none }

/-- An already-created object (non-empty UID). -/
def objW : ClientObject := ⟨"default", "web", "u2"⟩

/-- An object that was never applied: empty UID. -/
def objNoUid : ClientObject := ⟨"default", "web", ""⟩

/-- Reference of the `web` Deployment under its first UID. -/
def refU1 : ObjectReference := ⟨"apps/v1", "Deployment", "default", "web", "u1"⟩

/-- Reference of the `web` Deployment after re-creation: same coordinates,
different UID. -/
def refU2 : ObjectReference := ⟨"apps/v1", "Deployment", "default", "web", "u2"⟩

/-- Reference of a stale `api` Deployment from an older generation. -/
def refOld : ObjectReference := ⟨"apps/v1", "Deployment", "default", "api", "u0"⟩

/-! ### Claim C6 -/

/-- Claim C6: `MarkReconciled` on a resource whose UID is empty returns an
error and mutates nothing, and the same atomic-failure guarantee holds when
reference construction fails. -/
theorem c6_mark_unapplied_no_mutation (env : Collaborators) (p : Pruner)
    (obj : ClientObject) (currentGen : Int)
    (h : obj.uid = "" ∨ ∃ e, makeObjectReference env obj = .error e) :
    (markReconciled env p obj currentGen).1 = p ∧
    (markReconciled env p obj currentGen).2.isSome := by
  unfold markReconciled
  split_ifs with hu
  · exact ⟨rfl, rfl⟩
  · rcases h with h | ⟨e, he⟩
    · exact absurd h hu
    · rw [he]
      exact ⟨rfl, rfl⟩

/-- Witness for C6 at a concrete input: marking the never-applied object
leaves the fresh session untouched and reports an error. -/
theorem c6_witness :
    (markReconciled envW (NewPruner [⟨refU1, 1⟩] 1 false) objNoUid 1).1 =
      NewPruner [⟨refU1, 1⟩] 1 false ∧
    (markReconciled envW (NewPruner [⟨refU1, 1⟩] 1 false) objNoUid 1).2.isSome :=
  c6_mark_unapplied_no_mutation envW (NewPruner [⟨refU1, 1⟩] 1 false)
    objNoUid 1 (Or.inl rfl)

/-! ### Claim C7 -/

/-- Claim C7: a successful `MarkReconciled` upserts exactly one ledger
entry carrying the marked reference and the parent's current generation:
in place when an equal reference already exists (the reference sequence is
unchanged and every entry is either untouched or the updated one),
appended otherwise; uniqueness of references in the ledger is preserved. -/
theorem c7_mark_upsert (env : Collaborators) (p p' : Pruner)
    (obj : ClientObject) (currentGen : Int)
    (h : markReconciled env p obj currentGen = (p', none)) :
    ∃ ref, makeObjectReference env obj = .ok ref ∧
      p'.children = upsertChild p.children ref currentGen ∧
      (⟨ref, currentGen⟩ : ManagedChild) ∈ p'.children ∧
      (ref ∉ p.children.map (fun c => c.objectReference) →
        p'.children = p.children ++ [⟨ref, currentGen⟩]) ∧
      (ref ∈ p.children.map (fun c => c.objectReference) →
        p'.children.map (fun c => c.objectReference) =
          p.children.map (fun c => c.objectReference) ∧
        ∀ c' ∈ p'.children,
          c' = (⟨ref, currentGen⟩ : ManagedChild) ∨ c' ∈ p.children) ∧
      ((p.children.map (fun c => c.objectReference)).Nodup →
        (p'.children.map (fun c => c.objectReference)).Nodup) := by
  obtain ⟨-, ref, hmk, hp'⟩ := markReconciled_ok h
  subst hp'
  refine ⟨ref, hmk, rfl, upsertChild_mem_self _ _ _, ?_, ?_, ?_⟩
  · intro hnm
    exact upsertChild_of_not_mem currentGen hnm
  · intro hm
    exact ⟨upsertChild_map_of_mem currentGen hm, upsertChild_subset⟩
  · intro hnd
    exact upsertChild_nodup currentGen hnd

/-- Witness for C7 at a concrete input: marking the re-created `web`
Deployment in a session whose ledger already tracks the stale `api`
Deployment. -/
theorem c7_witness :
    ∃ ref, makeObjectReference envW objW = .ok ref ∧
      ((markReconciled envW (NewPruner [⟨refOld, 1⟩] 2 false) objW 2).1).children =
        upsertChild [⟨refOld, 1⟩] ref 2 ∧
      (⟨ref, 2⟩ : ManagedChild) ∈
        ((markReconciled envW (NewPruner [⟨refOld, 1⟩] 2 false) objW 2).1).children ∧
      (ref ∉ [(⟨refOld, 1⟩ : ManagedChild)].map (fun c => c.objectReference) →
        ((markReconciled envW (NewPruner [⟨refOld, 1⟩] 2 false) objW 2).1).children =
          [⟨refOld, 1⟩] ++ [⟨ref, 2⟩]) ∧
      (ref ∈ [(⟨refOld, 1⟩ : ManagedChild)].map (fun c => c.objectReference) →
        ((markReconciled envW (NewPruner [⟨refOld, 1⟩] 2 false) objW 2).1).children.map
            (fun c => c.objectReference) =
          [(⟨refOld, 1⟩ : ManagedChild)].map (fun c => c.objectReference) ∧
        ∀ c' ∈ ((markReconciled envW (NewPruner [⟨refOld, 1⟩] 2 false) objW 2).1).children,
          c' = (⟨ref, 2⟩ : ManagedChild) ∨ c' ∈ [(⟨refOld, 1⟩ : ManagedChild)]) ∧
      (([(⟨refOld, 1⟩ : ManagedChild)].map (fun c => c.objectReference)).Nodup →
        (((markReconciled envW (NewPruner [⟨refOld, 1⟩] 2 false) objW 2).1).children.map
          (fun c => c.objectReference)).Nodup) :=
  c7_mark_upsert envW (NewPruner [⟨refOld, 1⟩] 2 false)
    ((markReconciled envW (NewPruner [⟨refOld, 1⟩] 2 false) objW 2).1) objW 2 rfl

/-! ### Step lemmas: one loop iteration of `pruneStaleResources` -/

theorem pruneStale_cons_desired {env : Collaborators} {dryRun : Bool}
    {desired : List String} {baseline : Int} {c : ManagedChild}
    {rest : List ManagedChild}
    (h1 : makeRefKey c.objectReference ∈ desired) :
    pruneStaleResources env dryRun desired baseline (c :: rest) =
      { pruneStaleResources env dryRun desired baseline rest with
        children := c ::
          (pruneStaleResources env dryRun desired baseline rest).children } := by
  simp only [pruneStaleResources]
  rw [if_pos h1]

theorem pruneStale_cons_fresh {env : Collaborators} {dryRun : Bool}
    {desired : List String} {baseline : Int} {c : ManagedChild}
    {rest : List ManagedChild}
    (h1 : makeRefKey c.objectReference ∉ desired)
    (h2 : c.observedGeneration > baseline) :
    pruneStaleResources env dryRun desired baseline (c :: rest) =
      { pruneStaleResources env dryRun desired baseline rest with
        children := c ::
          (pruneStaleResources env dryRun desired baseline rest).children } := by
  simp only [pruneStaleResources]
  rw [if_neg h1, if_pos h2]

theorem pruneStale_cons_resolveFail {env : Collaborators} {dryRun : Bool}
    {desired : List String} {baseline : Int} {c : ManagedChild}
    {rest : List ManagedChild} {e : String}
    (h1 : makeRefKey c.objectReference ∉ desired)
    (h2 : ¬ c.observedGeneration > baseline)
    (hres : env.objectFromRef c.objectReference = .error e) :
    pruneStaleResources env dryRun desired baseline (c :: rest) =
      { pruneStaleResources env dryRun desired baseline rest with
        errors := ("failed to create object from reference " ++
            formatObjectReference c.objectReference ++ ": " ++ e) ::
          (pruneStaleResources env dryRun desired baseline rest).errors } := by
  simp only [pruneStaleResources]
  rw [if_neg h1, if_neg h2, hres]

theorem pruneStale_cons_dry {env : Collaborators}
    {desired : List String} {baseline : Int} {c : ManagedChild}
    {rest : List ManagedChild}
    (h1 : makeRefKey c.objectReference ∉ desired)
    (h2 : ¬ c.observedGeneration > baseline)
    (hres : env.objectFromRef c.objectReference = .ok ()) :
    pruneStaleResources env true desired baseline (c :: rest) =
      { pruneStaleResources env true desired baseline rest with
        skipped := formatObjectReference c.objectReference ::
          (pruneStaleResources env true desired baseline rest).skipped } := by
  simp only [pruneStaleResources]
  rw [if_neg h1, if_neg h2, hres]
  rfl

theorem pruneStale_cons_deleteOk {env : Collaborators}
    {desired : List String} {baseline : Int} {c : ManagedChild}
    {rest : List ManagedChild}
    (h1 : makeRefKey c.objectReference ∉ desired)
    (h2 : ¬ c.observedGeneration > baseline)
    (hres : env.objectFromRef c.objectReference = .ok ())
    (hdel : deleteResource env.del c.objectReference = none) :
    pruneStaleResources env false desired baseline (c :: rest) =
      { pruneStaleResources env false desired baseline rest with
        pruned := formatObjectReference c.objectReference ::
          (pruneStaleResources env false desired baseline rest).pruned
        deleteCalls := c.objectReference ::
          (pruneStaleResources env false desired baseline rest).deleteCalls } := by
  simp only [pruneStaleResources]
  rw [if_neg h1, if_neg h2, hres, hdel]
  rfl

theorem pruneStale_cons_handlerSome {env : Collaborators}
    {desired : List String} {baseline : Int} {c : ManagedChild}
    {rest : List ManagedChild} {e he : String}
    (h1 : makeRefKey c.objectReference ∉ desired)
    (h2 : ¬ c.observedGeneration > baseline)
    (hres : env.objectFromRef c.objectReference = .ok ())
    (hdel : deleteResource env.del c.objectReference = some e)
    (hh : env.handler e c.objectReference = some he) :
    pruneStaleResources env false desired baseline (c :: rest) =
      { pruneStaleResources env false desired baseline rest with
        children := c ::
          (pruneStaleResources env false desired baseline rest).children
        errors := he ::
          (pruneStaleResources env false desired baseline rest).errors
        deleteCalls := c.objectReference ::
          (pruneStaleResources env false desired baseline rest).deleteCalls
        handlerCalls := c.objectReference ::
          (pruneStaleResources env false desired baseline rest).handlerCalls } := by
  simp only [pruneStaleResources]
  rw [if_neg h1, if_neg h2, hres, hdel]
  simp only [hh]
  rfl

theorem pruneStale_cons_handlerNone {env : Collaborators}
    {desired : List String} {baseline : Int} {c : ManagedChild}
    {rest : List ManagedChild} {e : String}
    (h1 : makeRefKey c.objectReference ∉ desired)
    (h2 : ¬ c.observedGeneration > baseline)
    (hres : env.objectFromRef c.objectReference = .ok ())
    (hdel : deleteResource env.del c.objectReference = some e)
    (hh : env.handler e c.objectReference = none) :
    pruneStaleResources env false desired baseline (c :: rest) =
      { pruneStaleResources env false desired baseline rest with
        pruned := formatObjectReference c.objectReference ::
          (pruneStaleResources env false desired baseline rest).pruned
        deleteCalls := c.objectReference ::
          (pruneStaleResources env false desired baseline rest).deleteCalls
        handlerCalls := c.objectReference ::
          (pruneStaleResources env false desired baseline rest).handlerCalls } := by
  simp only [pruneStaleResources]
  rw [if_neg h1, if_neg h2, hres, hdel]
  simp only [hh]
  rfl

/-! ### The staleness partition of the prune executor -/

/-- When a `pruneStaleResources` run accumulates no error, an entry is in
the replacement ledger iff it was in the input ledger and is either
desired (by key) or fresher than the baseline. -/
theorem pruneStale_children_mem (env : Collaborators) (dryRun : Bool)
    (desired : List String) (baseline : Int) :
    ∀ l : List ManagedChild,
      (pruneStaleResources env dryRun desired baseline l).errors = [] →
      ∀ e : ManagedChild,
        (e ∈ (pruneStaleResources env dryRun desired baseline l).children ↔
          e ∈ l ∧ (makeRefKey e.objectReference ∈ desired ∨
            e.observedGeneration > baseline)) := by
  intro l
  induction l with
  | nil =>
    intro _ e
    simp [pruneStaleResources]
  | cons c rest ih =>
    intro herr e
    by_cases h1 : makeRefKey c.objectReference ∈ desired
    · rw [pruneStale_cons_desired h1] at herr ⊢
      simp only at herr
      have ih' := ih herr
      simp only [List.mem_cons]
      constructor
      · rintro (rfl | hm)
        · exact ⟨Or.inl rfl, Or.inl h1⟩
        · obtain ⟨hmem, hP⟩ := (ih' e).mp hm
          exact ⟨Or.inr hmem, hP⟩
      · rintro ⟨rfl | hm, hP⟩
        · exact Or.inl rfl
        · exact Or.inr ((ih' e).mpr ⟨hm, hP⟩)
    · by_cases h2 : c.observedGeneration > baseline
      · rw [pruneStale_cons_fresh h1 h2] at herr ⊢
        simp only at herr
        have ih' := ih herr
        simp only [List.mem_cons]
        constructor
        · rintro (rfl | hm)
          · exact ⟨Or.inl rfl, Or.inr h2⟩
          · obtain ⟨hmem, hP⟩ := (ih' e).mp hm
            exact ⟨Or.inr hmem, hP⟩
        · rintro ⟨rfl | hm, hP⟩
          · exact Or.inl rfl
          · exact Or.inr ((ih' e).mpr ⟨hm, hP⟩)
      · have hPfalse : ¬ (makeRefKey c.objectReference ∈ desired ∨
            c.observedGeneration > baseline) := by
          rintro (hk | hg)
          · exact h1 hk
          · exact h2 hg
        have main :
            (pruneStaleResources env dryRun desired baseline (c :: rest)).children =
              (pruneStaleResources env dryRun desired baseline rest).children →
            (pruneStaleResources env dryRun desired baseline rest).errors = [] →
            (e ∈ (pruneStaleResources env dryRun desired baseline (c :: rest)).children ↔
              e ∈ c :: rest ∧ (makeRefKey e.objectReference ∈ desired ∨
                e.observedGeneration > baseline)) := by
          intro hch herr2
          rw [hch, ih herr2 e]
          simp only [List.mem_cons]
          constructor
          · rintro ⟨hm, hP⟩
            exact ⟨Or.inr hm, hP⟩
          · rintro ⟨rfl | hm, hP⟩
            · exact absurd hP hPfalse
            · exact ⟨hm, hP⟩
        cases hres : env.objectFromRef c.objectReference with
        | error e' =>
          rw [pruneStale_cons_resolveFail h1 h2 hres] at herr
          exact absurd herr (by simp)
        | ok v =>
          cases v
          cases dryRun with
          | true =>
            refine main ?_ ?_
            · rw [pruneStale_cons_dry h1 h2 hres]
            · rw [pruneStale_cons_dry h1 h2 hres] at herr
              exact herr
          | false =>
            cases hdel : deleteResource env.del c.objectReference with
            | none =>
              refine main ?_ ?_
              · rw [pruneStale_cons_deleteOk h1 h2 hres hdel]
              · rw [pruneStale_cons_deleteOk h1 h2 hres hdel] at herr
                exact herr
            | some e' =>
              cases hh : env.handler e' c.objectReference with
              | some he =>
                rw [pruneStale_cons_handlerSome h1 h2 hres hdel hh] at herr
                exact absurd herr (by simp)
              | none =>
                refine main ?_ ?_
                · rw [pruneStale_cons_handlerNone h1 h2 hres hdel hh]
                · rw [pruneStale_cons_handlerNone h1 h2 hres hdel hh] at herr
                  exact herr

/-- Unfolding a `Prune` call that returned no error past its generation
guard: the status callback succeeded, the executor accumulated no error,
and the final ledger is the executor's replacement ledger. -/
theorem Prune_ok {env : Collaborators} {u : Option String} {p : Pruner}
    {currentGen : Int}
    (hgen : currentGen > p.lastAppliedGen)
    (herr : (Prune env u p currentGen).error = none) :
    u = none ∧
    (pruneStaleResources env p.dryRun p.desiredRefs p.lastAppliedGen
      p.children).errors = [] ∧
    (Prune env u p currentGen).state.children =
      (pruneStaleResources env p.dryRun p.desiredRefs p.lastAppliedGen
        p.children).children := by
  by_cases hE : (pruneStaleResources env p.dryRun p.desiredRefs
      p.lastAppliedGen p.children).errors = []
  · cases u with
    | none =>
      refine ⟨rfl, hE, ?_⟩
      simp only [Prune, if_pos hgen, if_pos hE]
    | some v =>
      simp only [Prune, if_pos hgen, if_pos hE] at herr
      exact absurd herr (by simp)
  · cases u with
    | none =>
      simp only [Prune, if_pos hgen, if_neg hE] at herr
      exact absurd herr (by simp)
    | some v =>
      simp only [Prune, if_pos hgen, if_neg hE] at herr
      exact absurd herr (by simp)

instance : DecidableEq (Except String ObjectReference) := fun a b =>
  match a, b with
  | .error x, .error y =>
      if h : x = y then .isTrue (by rw [h])
      else .isFalse (fun hc => h (Except.error.inj hc))
  | .error _, .ok _ => .isFalse (fun hc => Except.noConfusion hc)
  | .ok _, .error _ => .isFalse (fun hc => Except.noConfusion hc)
  | .ok x, .ok y =>
      if h : x = y then .isTrue (by rw [h])
      else .isFalse (fun hc => h (Except.ok.inj hc))

/-- After a successful marking phase, a key is in the desired set iff it
was there initially or some marked object's reference produces it. -/
theorem runMarks_desired (env : Collaborators) (g : Int) :
    ∀ (objs : List ClientObject) (p p' : Pruner),
      runMarks env g p objs = (p', none) →
      ∀ k : String, (k ∈ p'.desiredRefs ↔ k ∈ p.desiredRefs ∨
        ∃ o ∈ objs, ∃ r, makeObjectReference env o = .ok r ∧ makeRefKey r = k) := by
  intro objs
  induction objs with
  | nil =>
    intro p p' h k
    unfold runMarks at h
    rw [Prod.mk.injEq] at h
    obtain ⟨rfl, -⟩ := h
    simp
  | cons o os ih =>
    intro p p' h k
    unfold runMarks at h
    cases hm : markReconciled env p o g with
    | mk q oe =>
      rw [hm] at h
      cases oe with
      | none =>
        obtain ⟨-, ref, hmk, hq⟩ := markReconciled_ok hm
        have ihk := ih q p' h k
        rw [ihk]
        have hq' : q.desiredRefs = insertKey (makeRefKey ref) p.desiredRefs := by
          rw [hq]
        rw [hq', mem_insertKey]
        constructor
        · rintro ((rfl | hk) | ⟨o', ho', r, hr, hkey⟩)
          · exact Or.inr ⟨o, List.mem_cons_self _ _, ref, hmk, rfl⟩
          · exact Or.inl hk
          · exact Or.inr ⟨o', List.mem_cons_of_mem _ ho', r, hr, hkey⟩
        · rintro (hk | ⟨o', ho', r, hr, hkey⟩)
          · exact Or.inl (Or.inr hk)
          · rcases List.mem_cons.mp ho' with rfl | ho''
            · rw [hmk] at hr
              have hrr := Except.ok.inj hr
              exact Or.inl (Or.inl (by rw [← hkey, ← hrr]))
            · exact Or.inr ⟨o', ho'', r, hr, hkey⟩
      | some e => simp at h

/-! ### Claim C1 -/

/-- Counterexample to claim C1 as stated: the ledger holds the `web`
Deployment under UID `u1`; the session marks the re-created `web`
Deployment under UID `u2`; `Prune` (generation advanced, no error)
retains the `u1` entry even though no reference equal to it in all fields
was marked this session and its observed generation does not exceed the
baseline. -/
theorem c1_counterexample :
    (runMarks envW 2 (NewPruner [⟨refU1, 1⟩] 2 false) [objW]).2 = none ∧
    (2 : Int) > getLastAppliedGeneration [⟨refU1, 1⟩] 2 ∧
    (Prune envW none
      ((runMarks envW 2 (NewPruner [⟨refU1, 1⟩] 2 false) [objW]).1) 2).error =
      none ∧
    (⟨refU1, 1⟩ : ManagedChild) ∈
      ((runMarks envW 2 (NewPruner [⟨refU1, 1⟩] 2 false) [objW]).1).children ∧
    (⟨refU1, 1⟩ : ManagedChild) ∈
      ((Prune envW none
        ((runMarks envW 2 (NewPruner [⟨refU1, 1⟩] 2 false) [objW]).1) 2).state).children ∧
    (¬ ∃ o ∈ [objW], makeObjectReference envW o = .ok refU1) ∧
    ¬ ((1 : Int) > getLastAppliedGeneration [⟨refU1, 1⟩] 2) := by
  decide

/-- Claim C1 (amended): after a session whose marking phase succeeded and
a `Prune` call with the generation advanced past the construction-time
baseline that returns no error, a pre-prune ledger entry survives iff a
reference with the same key (APIVersion, Kind, Namespace, Name — the UID
is not compared) was marked this session, or its observed generation
strictly exceeds the baseline. -/
theorem c1_staleness_partition (env : Collaborators) (u : Option String)
    (children0 : List ManagedChild) (objs : List ClientObject)
    (conGen markGen pruneGen : Int) (dry : Bool) (s : Pruner)
    (hmarks : runMarks env markGen (NewPruner children0 conGen dry) objs =
      (s, none))
    (hgen : pruneGen > getLastAppliedGeneration children0 conGen)
    (herr : (Prune env u s pruneGen).error = none)
    (e : ManagedChild) (he : e ∈ s.children) :
    e ∈ (Prune env u s pruneGen).state.children ↔
      ((∃ o ∈ objs, ∃ r, makeObjectReference env o = .ok r ∧
          makeRefKey r = makeRefKey e.objectReference) ∨
        e.observedGeneration > getLastAppliedGeneration children0 conGen) := by
  have hinv := runMarks_invariants env markGen objs (NewPruner children0 conGen dry)
  rw [hmarks] at hinv
  have hbase : s.lastAppliedGen = getLastAppliedGeneration children0 conGen :=
    hinv.2.1
  have hgen' : pruneGen > s.lastAppliedGen := by rw [hbase]; exact hgen
  obtain ⟨-, hE, hch⟩ := Prune_ok hgen' herr
  rw [hch, pruneStale_children_mem env s.dryRun s.desiredRefs s.lastAppliedGen
    s.children hE e]
  have hdes := runMarks_desired env markGen objs (NewPruner children0 conGen dry)
    s hmarks (makeRefKey e.objectReference)
  have hdes' : makeRefKey e.objectReference ∈ s.desiredRefs ↔
      ∃ o ∈ objs, ∃ r, makeObjectReference env o = .ok r ∧
        makeRefKey r = makeRefKey e.objectReference := by
    rw [hdes]
    simp [NewPruner]
  constructor
  · rintro ⟨-, hk | hg⟩
    · exact Or.inl (hdes'.mp hk)
    · exact Or.inr (by rw [← hbase]; exact hg)
  · rintro (hmk | hg)
    · exact ⟨he, Or.inl (hdes'.mpr hmk)⟩
    · exact ⟨he, Or.inr (by rw [hbase]; exact hg)⟩

/-- Witness for the amended C1 at a concrete input: the freshly marked
entry survives the prune. -/
theorem c1_witness :
    (⟨refU2, 2⟩ : ManagedChild) ∈
      ((Prune envW none
        ((runMarks envW 2 (NewPruner [⟨refOld, 1⟩] 2 false) [objW]).1) 2).state).children ↔
      ((∃ o ∈ [objW], ∃ r, makeObjectReference envW o = .ok r ∧
          makeRefKey r = makeRefKey refU2) ∨
        (2 : Int) > getLastAppliedGeneration [⟨refOld, 1⟩] 2) :=
  c1_staleness_partition envW none [⟨refOld, 1⟩] [objW] 2 2 2 false
    ((runMarks envW 2 (NewPruner [⟨refOld, 1⟩] 2 false) [objW]).1) rfl
    (by decide) (by decide) ⟨refU2, 2⟩ (by decide)

/-! ### Claim C2 -/

/-- Claim C2: when the generation at `Prune` time does not exceed the
baseline captured at construction, `Prune` performs no deletion, never
invokes the error handler, leaves the ledger unchanged and returns an
empty result, regardless of the desired set and of the status callback's
outcome. -/
theorem c2_no_premature_deletion (env : Collaborators) (u : Option String)
    (children0 : List ManagedChild) (objs : List ClientObject)
    (conGen markGen pruneGen : Int) (dry : Bool) (s : Pruner)
    (hmarks : runMarks env markGen (NewPruner children0 conGen dry) objs =
      (s, none))
    (hgen : pruneGen ≤ getLastAppliedGeneration children0 conGen) :
    (Prune env u s pruneGen).state.children = s.children ∧
    (Prune env u s pruneGen).deleteCalls = [] ∧
    (Prune env u s pruneGen).handlerCalls = [] ∧
    (Prune env u s pruneGen).result = ⟨[], []⟩ := by
  have hinv := runMarks_invariants env markGen objs (NewPruner children0 conGen dry)
  rw [hmarks] at hinv
  have hbase : s.lastAppliedGen = getLastAppliedGeneration children0 conGen :=
    hinv.2.1
  have hres : s.result = ⟨[], []⟩ := hinv.1
  have hng : ¬ pruneGen > s.lastAppliedGen := by
    rw [hbase]
    exact not_lt.mpr hgen
  cases u with
  | none =>
    have hPr : Prune env none s pruneGen = ⟨s, s.result, [], [], none⟩ := by
      simp only [Prune, if_neg hng]
    rw [hPr]
    exact ⟨rfl, rfl, rfl, hres⟩
  | some v =>
    have hPr : Prune env (some v) s pruneGen =
        ⟨s, s.result, [], [], some (.statusAfterSuccess v)⟩ := by
      simp only [Prune, if_neg hng]
    rw [hPr]
    exact ⟨rfl, rfl, rfl, hres⟩

/-- Witness for C2 at a concrete input: generation 2 equals the baseline
(steady state), so the redundant `Prune` changes nothing. -/
theorem c2_witness :
    ((Prune envW none
      ((runMarks envW 2 (NewPruner [⟨refU1, 2⟩] 2 false) [objW]).1) 2).state).children =
      ((runMarks envW 2 (NewPruner [⟨refU1, 2⟩] 2 false) [objW]).1).children ∧
    (Prune envW none
      ((runMarks envW 2 (NewPruner [⟨refU1, 2⟩] 2 false) [objW]).1) 2).deleteCalls = [] ∧
    (Prune envW none
      ((runMarks envW 2 (NewPruner [⟨refU1, 2⟩] 2 false) [objW]).1) 2).handlerCalls = [] ∧
    (Prune envW none
      ((runMarks envW 2 (NewPruner [⟨refU1, 2⟩] 2 false) [objW]).1) 2).result = ⟨[], []⟩ :=
  c2_no_premature_deletion envW none [⟨refU1, 2⟩] [objW] 2 2 2 false
    ((runMarks envW 2 (NewPruner [⟨refU1, 2⟩] 2 false) [objW]).1) rfl
    (by decide)

/-! ### Claim C3 -/

/-- Claim C3 is violated by the code: evaluating a dry-run `Prune` on a
session whose ledger holds one stale entry shows the entry is recorded as
skipped and no deletion is attempted, but the entry is REMOVED from the
ledger (the dry-run branch of `pruneStaleResources` skips re-appending the
child to the replacement ledger), contradicting the required retention. -/
theorem c3_dry_run_removes_from_ledger :
    (Prune envW none (NewPruner [⟨refOld, 1⟩] 2 true) 2).state.children = [] ∧
    (Prune envW none (NewPruner [⟨refOld, 1⟩] 2 true) 2).result.skipped =
      [formatObjectReference refOld] ∧
    (Prune envW none (NewPruner [⟨refOld, 1⟩] 2 true) 2).result.pruned = [] ∧
    (Prune envW none (NewPruner [⟨refOld, 1⟩] 2 true) 2).deleteCalls = [] ∧
    (Prune envW none (NewPruner [⟨refOld, 1⟩] 2 true) 2).error = none := by
  decide

/-! ### Claim C5 -/

/-- Counterexample to claim C5 as stated: the only marked reference
differs from the ledger entry's reference (in the creation identifier),
yet the entry is classified Keep-desired. -/
theorem c5_counterexample :
    classify ([refU2].map makeRefKey) 1 ⟨refU1, 1⟩ =
      Classification.keepDesired ∧
    ¬ ∃ r ∈ [refU2], r = refU1 := by
  decide

/-- Claim C5 (amended): an entry is classified Keep-desired iff some
marked reference has the same key — equality of APIVersion, Kind,
Namespace and Name as combined by `makeRefKey`; the creation identifier
(UID) is not compared. -/
theorem c5_desired_membership_by_key (markedRefs : List ObjectReference)
    (baseline : Int) (c : ManagedChild) :
    classify (markedRefs.map makeRefKey) baseline c =
        Classification.keepDesired ↔
      ∃ r ∈ markedRefs, makeRefKey r = makeRefKey c.objectReference := by
  unfold classify
  by_cases h : makeRefKey c.objectReference ∈ markedRefs.map makeRefKey
  · rw [if_pos h]
    simp only [List.mem_map] at h
    obtain ⟨r, hr, hk⟩ := h
    exact iff_of_true rfl ⟨r, hr, hk⟩
  · rw [if_neg h]
    constructor
    · intro hc
      exfalso
      by_cases h2 : c.observedGeneration > baseline
      · rw [if_pos h2] at hc
        exact Classification.noConfusion hc
      · rw [if_neg h2] at hc
        exact Classification.noConfusion hc
    · rintro ⟨r, hr, hk⟩
      exact absurd (List.mem_map.mpr ⟨r, hr, hk⟩) h

/-- Embeds `defaultErrorHandler` (options.go lines 76-80): wrap the error
with the object key (`namespace/name`) and return it for aggregation. -/
def defaultErrorHandler (e : String) (ref : ObjectReference) : Option String :=
  some ("failed to delete " ++ ref.nspace ++ "/" ++ ref.name ++ ": " ++ e)

/-- Unfolding a `Prune` call whose executor accumulated errors and whose
status callback succeeded: the aggregate of all causes is returned along
with the partial result. -/
theorem Prune_aggregate (env : Collaborators) (p : Pruner) (currentGen : Int)
    (hgen : currentGen > p.lastAppliedGen)
    (hE : (pruneStaleResources env p.dryRun p.desiredRefs p.lastAppliedGen
      p.children).errors ≠ []) :
    Prune env none p currentGen = ⟨
      { p with
        children := (pruneStaleResources env p.dryRun p.desiredRefs
          p.lastAppliedGen p.children).children
        result := ⟨p.result.pruned ++ (pruneStaleResources env p.dryRun
            p.desiredRefs p.lastAppliedGen p.children).pruned,
          p.result.skipped ++ (pruneStaleResources env p.dryRun p.desiredRefs
            p.lastAppliedGen p.children).skipped⟩ },
      ⟨p.result.pruned ++ (pruneStaleResources env p.dryRun p.desiredRefs
          p.lastAppliedGen p.children).pruned,
        p.result.skipped ++ (pruneStaleResources env p.dryRun p.desiredRefs
          p.lastAppliedGen p.children).skipped⟩,
      (pruneStaleResources env p.dryRun p.desiredRefs p.lastAppliedGen
        p.children).deleteCalls,
      (pruneStaleResources env p.dryRun p.desiredRefs p.lastAppliedGen
        p.children).handlerCalls,
      some (.aggregate (pruneStaleResources env p.dryRun p.desiredRefs
        p.lastAppliedGen p.children).errors)⟩ := by
  simp only [Prune, if_pos hgen, if_neg hE]

/-! ### Claim C4 -/

/-- Claim C4: a stale entry whose deletion fails with a non-not-found
error that the policy returns is retained in the ledger, its policy error
is accumulated, `Prune` returns the aggregate wrapping every accumulated
cause together with the partial result, and the remaining entries are
still processed normally. -/
theorem c4_policy_error_retains_and_aggregates (env : Collaborators)
    (p : Pruner) (pruneGen : Int) (c : ManagedChild)
    (rest : List ManagedChild) (e he : String)
    (hch : p.children = c :: rest)
    (hdry : p.dryRun = false)
    (h1 : makeRefKey c.objectReference ∉ p.desiredRefs)
    (h2 : ¬ c.observedGeneration > p.lastAppliedGen)
    (hres : env.objectFromRef c.objectReference = .ok ())
    (hdel : env.del c.objectReference = .failed e)
    (hh : env.handler e c.objectReference = some he)
    (hgen : pruneGen > p.lastAppliedGen) :
    c ∈ (Prune env none p pruneGen).state.children ∧
    (Prune env none p pruneGen).state.children = c ::
      (pruneStaleResources env false p.desiredRefs p.lastAppliedGen rest).children ∧
    (Prune env none p pruneGen).error = some (.aggregate (he ::
      (pruneStaleResources env false p.desiredRefs p.lastAppliedGen rest).errors)) ∧
    (Prune env none p pruneGen).result =
      ⟨p.result.pruned ++
          (pruneStaleResources env false p.desiredRefs p.lastAppliedGen rest).pruned,
        p.result.skipped ++
          (pruneStaleResources env false p.desiredRefs p.lastAppliedGen rest).skipped⟩ := by
  have hdel' : deleteResource env.del c.objectReference = some e := by
    simp [deleteResource, hdel]
  have hstep := @pruneStale_cons_handlerSome env p.desiredRefs p.lastAppliedGen
    c rest e he h1 h2 hres hdel' hh
  have hout : pruneStaleResources env p.dryRun p.desiredRefs p.lastAppliedGen
      p.children =
      { pruneStaleResources env false p.desiredRefs p.lastAppliedGen rest with
        children := c ::
          (pruneStaleResources env false p.desiredRefs p.lastAppliedGen rest).children
        errors := he ::
          (pruneStaleResources env false p.desiredRefs p.lastAppliedGen rest).errors
        deleteCalls := c.objectReference ::
          (pruneStaleResources env false p.desiredRefs p.lastAppliedGen rest).deleteCalls
        handlerCalls := c.objectReference ::
          (pruneStaleResources env false p.desiredRefs p.lastAppliedGen rest).handlerCalls } := by
    rw [hdry, hch]
    exact hstep
  have hE : (pruneStaleResources env p.dryRun p.desiredRefs p.lastAppliedGen
      p.children).errors ≠ [] := by
    rw [hout]
    simp
  have hPr := Prune_aggregate env p pruneGen hgen hE
  rw [hPr]
  refine ⟨?_, ?_, ?_, ?_⟩
  · rw [show (⟨{ p with
        children := (pruneStaleResources env p.dryRun p.desiredRefs
          p.lastAppliedGen p.children).children
        result := ⟨p.result.pruned ++ (pruneStaleResources env p.dryRun
            p.desiredRefs p.lastAppliedGen p.children).pruned,
          p.result.skipped ++ (pruneStaleResources env p.dryRun p.desiredRefs
            p.lastAppliedGen p.children).skipped⟩ },
      ⟨p.result.pruned ++ (pruneStaleResources env p.dryRun p.desiredRefs
          p.lastAppliedGen p.children).pruned,
        p.result.skipped ++ (pruneStaleResources env p.dryRun p.desiredRefs
          p.lastAppliedGen p.children).skipped⟩,
      (pruneStaleResources env p.dryRun p.desiredRefs p.lastAppliedGen
        p.children).deleteCalls,
      (pruneStaleResources env p.dryRun p.desiredRefs p.lastAppliedGen
        p.children).handlerCalls,
      some (.aggregate (pruneStaleResources env p.dryRun p.desiredRefs
        p.lastAppliedGen p.children).errors)⟩ : PruneResult).state.children =
      (pruneStaleResources env p.dryRun p.desiredRefs p.lastAppliedGen
        p.children).children from rfl, hout]
    exact List.mem_cons_self _ _
  · rw [hout]
  · rw [hout]
  · rw [hout]

/-- Collaborators whose deletion transport always fails with a
non-not-found error and whose policy is the default (wrap and return). -/
def envFail : Collaborators :=
  { getGVK := fun _ => .ok gvkW
    objectFromRef := fun _ => .ok ()
    del := fun _ => .failed "boom"
    handler := defaultErrorHandler }

/-- A mid-session state: two stale entries, nothing desired, baseline 1. -/
def pFail : Pruner :=
  { dryRun := false
    desiredRefs := []
    children := [⟨refOld, 1⟩, ⟨refU1, 1⟩]
    result := ⟨[], []⟩
    lastAppliedGen := 1 }

/-- Witness for C4 at a concrete input: both stale entries fail to delete,
the first is retained, its error heads the aggregate, and the second was
still processed. -/
theorem c4_witness :
    (⟨refOld, 1⟩ : ManagedChild) ∈ (Prune envFail none pFail 2).state.children ∧
    (Prune envFail none pFail 2).state.children = ⟨refOld, 1⟩ ::
      (pruneStaleResources envFail false pFail.desiredRefs pFail.lastAppliedGen
        [⟨refU1, 1⟩]).children ∧
    (Prune envFail none pFail 2).error = some
      (.aggregate ("failed to delete default/api: boom" ::
        (pruneStaleResources envFail false pFail.desiredRefs pFail.lastAppliedGen
          [⟨refU1, 1⟩]).errors)) ∧
    (Prune envFail none pFail 2).result =
      ⟨pFail.result.pruned ++
          (pruneStaleResources envFail false pFail.desiredRefs
            pFail.lastAppliedGen [⟨refU1, 1⟩]).pruned,
        pFail.result.skipped ++
          (pruneStaleResources envFail false pFail.desiredRefs
            pFail.lastAppliedGen [⟨refU1, 1⟩]).skipped⟩ :=
  c4_policy_error_retains_and_aggregates envFail pFail 2 ⟨refOld, 1⟩
    [⟨refU1, 1⟩] "boom" "failed to delete default/api: boom" rfl rfl
    (by decide) (by decide) rfl rfl rfl (by decide)

/-! ### Claim C8 -/

/-- Claim C8: a stale entry whose deletion reports not-found is treated as
a success: `deleteResource` maps the outcome to success, the entry's
reference is recorded as pruned, the entry is dropped from the replacement
ledger, no error is accumulated for it and the error policy is not
invoked for it — while the deletion transport was indeed invoked. -/
theorem c8_not_found_treated_as_pruned (env : Collaborators)
    (desired : List String) (baseline : Int) (c : ManagedChild)
    (rest : List ManagedChild)
    (h1 : makeRefKey c.objectReference ∉ desired)
    (h2 : ¬ c.observedGeneration > baseline)
    (hres : env.objectFromRef c.objectReference = .ok ())
    (hdel : env.del c.objectReference = .notFound) :
    deleteResource env.del c.objectReference = none ∧
    (pruneStaleResources env false desired baseline (c :: rest)).children =
      (pruneStaleResources env false desired baseline rest).children ∧
    (pruneStaleResources env false desired baseline (c :: rest)).pruned =
      formatObjectReference c.objectReference ::
        (pruneStaleResources env false desired baseline rest).pruned ∧
    (pruneStaleResources env false desired baseline (c :: rest)).errors =
      (pruneStaleResources env false desired baseline rest).errors ∧
    (pruneStaleResources env false desired baseline (c :: rest)).handlerCalls =
      (pruneStaleResources env false desired baseline rest).handlerCalls ∧
    (pruneStaleResources env false desired baseline (c :: rest)).deleteCalls =
      c.objectReference ::
        (pruneStaleResources env false desired baseline rest).deleteCalls := by
  have hdel' : deleteResource env.del c.objectReference = none := by
    simp [deleteResource, hdel]
  have hstep := @pruneStale_cons_deleteOk env desired baseline c rest h1 h2
    hres hdel'
  exact ⟨hdel', by rw [hstep], by rw [hstep], by rw [hstep], by rw [hstep],
    by rw [hstep]⟩

/-- Collaborators whose deletion transport reports the resource as already
absent. -/
def envGone : Collaborators :=
  { getGVK := fun _ => .ok gvkW
    objectFromRef := fun _ => .ok ()
    del := fun _ => .notFound
    handler := defaultErrorHandler }

/-- Witness for C8 at a concrete input. -/
theorem c8_witness :
    deleteResource envGone.del refOld = none ∧
    (pruneStaleResources envGone false [] 1 [⟨refOld, 1⟩]).children =
      (pruneStaleResources envGone false [] 1 []).children ∧
    (pruneStaleResources envGone false [] 1 [⟨refOld, 1⟩]).pruned =
      formatObjectReference refOld ::
        (pruneStaleResources envGone false [] 1 []).pruned ∧
    (pruneStaleResources envGone false [] 1 [⟨refOld, 1⟩]).errors =
      (pruneStaleResources envGone false [] 1 []).errors ∧
    (pruneStaleResources envGone false [] 1 [⟨refOld, 1⟩]).handlerCalls =
      (pruneStaleResources envGone false [] 1 []).handlerCalls ∧
    (pruneStaleResources envGone false [] 1 [⟨refOld, 1⟩]).deleteCalls =
      refOld :: (pruneStaleResources envGone false [] 1 []).deleteCalls :=
  c8_not_found_treated_as_pruned envGone [] 1 ⟨refOld, 1⟩ [] (by decide)
    (by decide) rfl rfl

/-! ### Claim C10 -/

/-- Claim C10: a stale entry whose stored reference cannot be turned back
into a deletable handle is dropped from the replacement ledger without any
deletion attempt, while the construction failure is accumulated as a
pruning error; the result lists are untouched for it. -/
theorem c10_unresolvable_reference_dropped (env : Collaborators)
    (desired : List String) (baseline : Int) (c : ManagedChild)
    (rest : List ManagedChild) (e : String)
    (h1 : makeRefKey c.objectReference ∉ desired)
    (h2 : ¬ c.observedGeneration > baseline)
    (hres : env.objectFromRef c.objectReference = .error e) :
    (pruneStaleResources env false desired baseline (c :: rest)).children =
      (pruneStaleResources env false desired baseline rest).children ∧
    (pruneStaleResources env false desired baseline (c :: rest)).errors =
      ("failed to create object from reference " ++
          formatObjectReference c.objectReference ++ ": " ++ e) ::
        (pruneStaleResources env false desired baseline rest).errors ∧
    (pruneStaleResources env false desired baseline (c :: rest)).deleteCalls =
      (pruneStaleResources env false desired baseline rest).deleteCalls ∧
    (pruneStaleResources env false desired baseline (c :: rest)).pruned =
      (pruneStaleResources env false desired baseline rest).pruned ∧
    (pruneStaleResources env false desired baseline (c :: rest)).skipped =
      (pruneStaleResources env false desired baseline rest).skipped := by
  have hstep := @pruneStale_cons_resolveFail env false desired baseline c rest
    e h1 h2 hres
  exact ⟨by rw [hstep], by rw [hstep], by rw [hstep], by rw [hstep],
    by rw [hstep]⟩

/-- Collaborators for which handle construction from a stored reference
fails (for example, a kind no longer registered in the scheme). -/
def envBadRef : Collaborators :=
  { getGVK := fun _ => .ok gvkW
    objectFromRef := fun _ => .error "no kind is registered"
    del := fun _ => .success
    handler := defaultErrorHandler }

/-- Witness for C10 at a concrete input. -/
theorem c10_witness :
    (pruneStaleResources envBadRef false [] 1 [⟨refOld, 1⟩]).children =
      (pruneStaleResources envBadRef false [] 1 []).children ∧
    (pruneStaleResources envBadRef false [] 1 [⟨refOld, 1⟩]).errors =
      ("failed to create object from reference " ++
          formatObjectReference refOld ++ ": " ++ "no kind is registered") ::
        (pruneStaleResources envBadRef false [] 1 []).errors ∧
    (pruneStaleResources envBadRef false [] 1 [⟨refOld, 1⟩]).deleteCalls =
      (pruneStaleResources envBadRef false [] 1 []).deleteCalls ∧
    (pruneStaleResources envBadRef false [] 1 [⟨refOld, 1⟩]).pruned =
      (pruneStaleResources envBadRef false [] 1 []).pruned ∧
    (pruneStaleResources envBadRef false [] 1 [⟨refOld, 1⟩]).skipped =
      (pruneStaleResources envBadRef false [] 1 []).skipped :=
  c10_unresolvable_reference_dropped envBadRef [] 1 ⟨refOld, 1⟩ []
    "no kind is registered" (by decide) (by decide) rfl

/-! ### Claim C9 -/

/-- The spec's "simpler formulation": `baseline = max(observedGeneration,
default 0)`, i.e. a fold of `max` started at 0. -/
def baselineSimple (children : List ManagedChild) : Int :=
  children.foldl (fun m c => max m c.observedGeneration) 0

/-- True maximum of the observed generations of a nonempty ledger
(0 for the empty ledger, where it is never used). -/
def maxGenOf : List ManagedChild → Int
  | [] => 0
  | c :: rest =>
      rest.foldl (fun m c' => max m c'.observedGeneration) c.observedGeneration

/-- Modelled from the spec (§4.2): the four-step baseline rule — 0 for an
empty ledger, otherwise the maximum observed generation, with the
steady-state special case returning the current generation when the
maximum equals it. -/
def specBaselineRule (children : List ManagedChild) (currentGen : Int) : Int :=
  if children = [] then 0
  else if maxGenOf children = currentGen then currentGen
  else maxGenOf children

theorem foldl_if_eq_foldl_max :
    ∀ (l : List ManagedChild) (a : Int),
      l.foldl (fun m c => if c.observedGeneration > m then c.observedGeneration
        else m) a =
      l.foldl (fun m c => max m c.observedGeneration) a := by
  intro l
  induction l with
  | nil => intro a; rfl
  | cons c rest ih =>
    intro a
    have hx : (if c.observedGeneration > a then c.observedGeneration else a) =
        max a c.observedGeneration := by
      by_cases h : c.observedGeneration > a
      · rw [if_pos h, max_eq_right h.le]
      · rw [if_neg h, max_eq_left (not_lt.mp h)]
    simp only [List.foldl_cons]
    rw [hx, ih]

theorem foldl_max_ge :
    ∀ (l : List ManagedChild) (a : Int),
      a ≤ l.foldl (fun m c => max m c.observedGeneration) a := by
  intro l
  induction l with
  | nil => intro a; exact le_refl a
  | cons c rest ih =>
    intro a
    simp only [List.foldl_cons]
    exact le_trans (le_max_left a c.observedGeneration)
      (ih (max a c.observedGeneration))

theorem foldl_max_split :
    ∀ (l : List ManagedChild) (a b : Int),
      l.foldl (fun m c => max m c.observedGeneration) (max a b) =
        max a (l.foldl (fun m c => max m c.observedGeneration) b) := by
  intro l
  induction l with
  | nil => intro a b; rfl
  | cons c rest ih =>
    intro a b
    simp only [List.foldl_cons]
    rw [max_assoc, ih]

/-- Claim C9: for ledgers whose observed generations are nonnegative (a
generation is a nonnegative counter), the code's baseline equals the
spec's simpler formulation `max(observedGeneration, default 0)`, the
spec's four-step rule computes the same value, the empty ledger yields 0
and a nonempty ledger yields the maximum observed generation. -/
theorem c9_baseline_equivalence (children : List ManagedChild)
    (currentGen : Int)
    (hnn : ∀ c ∈ children, 0 ≤ c.observedGeneration) :
    getLastAppliedGeneration children currentGen = baselineSimple children ∧
    specBaselineRule children currentGen = baselineSimple children ∧
    (children = [] → getLastAppliedGeneration children currentGen = 0) ∧
    (children ≠ [] →
      getLastAppliedGeneration children currentGen = maxGenOf children) := by
  have hcode : getLastAppliedGeneration children currentGen =
      baselineSimple children := by
    simp only [getLastAppliedGeneration, baselineSimple]
    by_cases hn : children = []
    · subst hn
      simp
    · rw [if_neg hn, foldl_if_eq_foldl_max]
      split_ifs with h
      · exact h.symm
      · rfl
  have hmax : children ≠ [] → baselineSimple children = maxGenOf children := by
    intro hn
    cases children with
    | nil => exact absurd rfl hn
    | cons c rest =>
      have h0 : (0 : Int) ≤ c.observedGeneration :=
        hnn c (List.mem_cons_self _ _)
      simp only [baselineSimple, maxGenOf, List.foldl_cons]
      rw [show max (0 : Int) c.observedGeneration = max 0 c.observedGeneration
        from rfl, foldl_max_split,
        max_eq_right (le_trans h0 (foldl_max_ge rest c.observedGeneration))]
  have hspec : specBaselineRule children currentGen =
      baselineSimple children := by
    unfold specBaselineRule
    by_cases hn : children = []
    · subst hn
      simp [baselineSimple]
    · rw [if_neg hn, ← hmax hn]
      split_ifs with h
      · exact h.symm
      · rfl
  refine ⟨hcode, hspec, ?_, ?_⟩
  · intro hn
    subst hn
    simp [getLastAppliedGeneration]
  · intro hn
    rw [hcode, hmax hn]

/-- Witness for C9 at a concrete input: a two-entry ledger with
generations 1 and 2 under current generation 3. -/
theorem c9_witness :
    (∀ c ∈ [(⟨refU1, 1⟩ : ManagedChild), ⟨refOld, 2⟩],
      0 ≤ c.observedGeneration) ∧
    (getLastAppliedGeneration [⟨refU1, 1⟩, ⟨refOld, 2⟩] 3 =
      baselineSimple [⟨refU1, 1⟩, ⟨refOld, 2⟩] ∧
    specBaselineRule [⟨refU1, 1⟩, ⟨refOld, 2⟩] 3 =
      baselineSimple [⟨refU1, 1⟩, ⟨refOld, 2⟩] ∧
    ([(⟨refU1, 1⟩ : ManagedChild), ⟨refOld, 2⟩] = ([] : List ManagedChild) →
      getLastAppliedGeneration [⟨refU1, 1⟩, ⟨refOld, 2⟩] 3 = 0) ∧
    ([(⟨refU1, 1⟩ : ManagedChild), ⟨refOld, 2⟩] ≠ ([] : List ManagedChild) →
      getLastAppliedGeneration [⟨refU1, 1⟩, ⟨refOld, 2⟩] 3 =
        maxGenOf [⟨refU1, 1⟩, ⟨refOld, 2⟩])) :=
  ⟨by decide, c9_baseline_equivalence [⟨refU1, 1⟩, ⟨refOld, 2⟩] 3 (by decide)⟩

end Reconcileprune
